import Mathlib

/-!
Shallow embedding of the ESP-NOW auto-forming mesh node
(src/micropython/esp32/automesh.py).

The mutable state of one `Mesh` object is modelled by `MeshState`:
  * `is_in_mesh`  — the class attribute set by `receiver_task`;
  * `peers`       — the `self.peers` dictionary (association list keyed by
                    MAC address, insertion ordered like a Python dict);
  * `registered`  — the link-layer peer list held by the `aioespnow.AIOESPNow`
                    object (`add_peer` / `del_peer` / `get_peer` / `get_peers`);
  * `now`         — the clock read by `datetime.utcnow()` for `last_seen`.

Transport behaviour that the code only observes is an oracle:
  * `o : Nat → Bool` gives the result of the k-th `asend` attempt of one
    `send_message` call;
  * `regOk : Bool` says whether `self.mesh.add_peer` succeeds (it can raise,
    e.g. when the hardware peer table is full);
  * `flags : Nat → Bool` is the value of `is_in_mesh` that `beacon_task`
    observes at its i-th loop check.

Exceptions are explicit: `SendResult.keyError` is the uncaught `KeyError`
raised by `self.peers[peer_address]` in `send_message`; `add_peer` and
`remove_peer` swallow their exceptions (`except ... print`), so they are
total functions on states.  Loops are given fuel; `SendResult.fuelOut`
marks fuel exhaustion and is proved unreachable for the fuel the top-level
entry points pass.
-/

namespace AutoMesh

/-- A link-layer MAC address, a list of bytes. -/
abbrev Addr : Type := List Nat

/-- `BROADCAST_ADDR = b'\xff\xff\xff\xff\xff\xff'`. -/
def BROADCAST_ADDR : Addr := [255, 255, 255, 255, 255, 255]

/-- One entry of the `self.peers` dictionary (class `Peer`). -/
structure Peer where
  mac_address : Addr
  failure_count : Nat
  last_seen : Nat
deriving DecidableEq, Repr

/-- The state of one `Mesh` object plus the transport's peer registry. -/
structure MeshState where
  is_in_mesh : Bool
  peers : List (Addr × Peer)
  registered : List Addr
  now : Nat
deriving DecidableEq, Repr

/-- Python dictionary lookup `self.peers[a]` (first matching key). -/
def findPeer : List (Addr × Peer) → Addr → Option Peer
  | [], _ => none
  | (k, v) :: ps, a => if k = a then some v else findPeer ps a

/-- `self.peers[a].failure_count = n`: mutate the stored `Peer` in place. -/
def dictSetFail : List (Addr × Peer) → Addr → Nat → List (Addr × Peer)
  | [], _, _ => []
  | (k, v) :: ps, a, n =>
    if k = a then (k, { v with failure_count := n }) :: dictSetFail ps a n
    else (k, v) :: dictSetFail ps a n

/-- `self.peers[a] = p`: replace in place when present, append when absent. -/
def dictSet : List (Addr × Peer) → Addr → Peer → List (Addr × Peer)
  | [], _, _ => []
  | (k, v) :: ps, a, p =>
    if k = a then (k, p) :: dictSet ps a p else (k, v) :: dictSet ps a p

/-- Python dict assignment `self.peers[a] = p`. -/
def dictInsert (ps : List (Addr × Peer)) (a : Addr) (p : Peer) :
    List (Addr × Peer) :=
  match findPeer ps a with
  | some _ => dictSet ps a p
  | none => ps ++ [(a, p)]

/-- `del self.peers[a]` (all entries with that key; the keys are unique in
every reachable state). -/
def dictErase : List (Addr × Peer) → Addr → List (Addr × Peer)
  | [], _ => []
  | (k, v) :: ps, a => if k = a then dictErase ps a else (k, v) :: dictErase ps a

/-- Removal from the transport's link-layer peer list (`del_peer`). -/
def eraseAddr : List Addr → Addr → List Addr
  | [], _ => []
  | x :: xs, a => if x = a then eraseAddr xs a else x :: eraseAddr xs a

/-- `self.peers[a].failure_count = n` lifted to the state. -/
def setFailure (st : MeshState) (a : Addr) (n : Nat) : MeshState :=
  { st with peers := dictSetFail st.peers a n }

/-- `Mesh.remove_peer`: `del_peer` raises when `a` is not link-registered, in
which case the caught exception leaves everything unchanged; otherwise the
link registration is dropped and then `del self.peers[a]` runs (a `KeyError`
there is also caught, so an absent dictionary key is a no-op). -/
def remove_peer (st : MeshState) (a : Addr) : MeshState :=
  if a ∈ st.registered then
    { st with registered := eraseAddr st.registered a,
              peers := dictErase st.peers a }
  else st

/-- `Mesh.add_peer`: if `get_peer a` succeeds (`a` already link-registered)
nothing happens; otherwise `self.mesh.add_peer a` is attempted — on success
(`regOk`) the address is link-registered and a fresh `Peer` (failure count 0,
`last_seen = now`) enters the dictionary, on failure the exception is caught
and nothing changes. -/
def add_peer (regOk : Bool) (st : MeshState) (a : Addr) : MeshState :=
  if a ∈ st.registered then st
  else if regOk then
    { st with registered := st.registered ++ [a],
              peers := dictInsert st.peers a ⟨a, 0, st.now⟩ }
  else st

/-- One iteration of `Mesh.receiver_task` for a received frame from `sender`:
if `get_peer sender` raises (sender not link-registered), `add_peer` runs and
then `self.is_in_mesh = True` is executed unconditionally. -/
def receiver_step (regOk : Bool) (st : MeshState) (sender : Addr) : MeshState :=
  if sender ∈ st.registered then st
  else { add_peer regOk st sender with is_in_mesh := true }

/-- Observable transport events of a run fragment. -/
inductive Ev where
  | asend : Addr → String → Bool → Ev
  | sleep : Nat → Ev
deriving DecidableEq, Repr

/-- Result of one `send_message` call. `keyError` is the uncaught `KeyError`
from `self.peers[peer_address]`; `fuelOut` never occurs for the fuel
`send_message` passes. -/
inductive SendResult where
  | success
  | evicted
  | keyError
  | fuelOut
deriving DecidableEq, Repr

/-- The `while True` loop of `Mesh.send_message`.  Each iteration: `asend`
(result `o k`), then on success `failure_count = 0` and exit, on failure
`failure_count += 1`, eviction once the count reaches 5, else a 1-unit sleep
and retry.  The dictionary accesses after `asend` raise `KeyError` when the
address is not a key of `self.peers`. -/
def smLoop (o : Nat → Bool) (msg : String) (addr : Addr) :
    Nat → Nat → MeshState → SendResult × MeshState × List Ev
  | 0, _, st => (SendResult.fuelOut, st, [])
  | fuel + 1, k, st =>
    match findPeer st.peers addr with
    | none => (SendResult.keyError, st, [Ev.asend addr msg (o k)])
    | some p =>
      if o k then
        (SendResult.success, setFailure st addr 0, [Ev.asend addr msg true])
      else
        if 5 ≤ p.failure_count + 1 then
          (SendResult.evicted,
            remove_peer (setFailure st addr (p.failure_count + 1)) addr,
            [Ev.asend addr msg false])
        else
          let r := smLoop o msg addr fuel (k + 1)
            (setFailure st addr (p.failure_count + 1))
          (r.1, r.2.1, Ev.asend addr msg false :: Ev.sleep 1 :: r.2.2)

/-- `Mesh.send_message`: the retry loop makes at most 5 attempts, so fuel 6
is never exhausted. -/
def send_message (o : Nat → Bool) (st : MeshState) (msg : String)
    (addr : Addr) : SendResult × MeshState × List Ev :=
  smLoop o msg addr 6 0 st

/-- The `for peer in peers` body of one `notify_task` cycle over an already
taken snapshot `l` of `get_peers()`.  A `KeyError` escaping `send_message`
propagates and kills the task: the returned flag is `true` and the remaining
peers are not probed.  A completed cycle ends with the 5-unit sleep. -/
def notify_go (os : Nat → Nat → Bool) (msg : String) :
    Nat → MeshState → List Addr → Bool × MeshState × List Ev
  | _, st, [] => (false, st, [Ev.sleep 5])
  | i, st, a :: rest =>
    let r := send_message (os i) st msg a
    match r.1 with
    | SendResult.keyError => (true, r.2.1, r.2.2)
    | _ =>
      let r2 := notify_go os msg (i + 1) r.2.1 rest
      (r2.1, r2.2.1, r.2.2 ++ r2.2.2)

/-- One cycle of `Mesh.notify_task`: `peers = self.mesh.get_peers()` takes a
snapshot of the link-layer peer list, then every entry is probed with the
payload `"Hi"`. -/
def notify_cycle (os : Nat → Nat → Bool) (st : MeshState) :
    Bool × MeshState × List Ev :=
  notify_go os "Hi" 0 st st.registered

/-- The discovery payload `"--hello--"` of `beacon_task`. -/
def hello : String := "--hello--"

/-- `Mesh.beacon_task`: while the observed `is_in_mesh` is false, broadcast
`"--hello--"` (an `asend` to `BROADCAST_ADDR` whose ignored result is
`bo i`), sleep 1 unit and check again; on observing true, exit for good.
The returned flag is true when the task exited within the fuel. -/
def beaconRun (flags bo : Nat → Bool) : Nat → Nat → List Ev × Bool
  | 0, _ => ([], false)
  | fuel + 1, i =>
    if flags i then ([], true)
    else
      let r := beaconRun flags bo fuel (i + 1)
      (Ev.asend BROADCAST_ADDR hello (bo i) :: Ev.sleep 1 :: r.1, r.2)

/-- The exact event trace of `n` beacon iterations starting at check `i`. -/
def beaconTrace (bo : Nat → Bool) : Nat → Nat → List Ev
  | _, 0 => []
  | i, n + 1 =>
    Ev.asend BROADCAST_ADDR hello (bo i) :: Ev.sleep 1 :: beaconTrace bo (i + 1) n

/-- The addresses of the `asend` events of a trace, in order. -/
def sendTargets : List Ev → List Addr
  | [] => []
  | Ev.asend a _ _ :: tr => a :: sendTargets tr
  | Ev.sleep _ :: tr => sendTargets tr

/-- How many `asend` attempts a trace records. -/
def attemptCount (tr : List Ev) : Nat := (sendTargets tr).length

/-- A `send_message` trace shape: attempts to one address with one payload,
separated by exactly one 1-unit sleep, no trailing sleep. -/
inductive AltTrace (addr : Addr) (msg : String) : List Ev → Prop
  | single (ok : Bool) : AltTrace addr msg [Ev.asend addr msg ok]
  | cons (ok : Bool) (tr : List Ev) : AltTrace addr msg tr →
      AltTrace addr msg (Ev.asend addr msg ok :: Ev.sleep 1 :: tr)

/-- The state of a fresh `Mesh()` object: `is_in_mesh = False`, empty peers
dictionary, nothing link-registered. -/
def initial_state : MeshState :=
  { is_in_mesh := false, peers := [], registered := [], now := 0 }

/-- The state right after `Mesh.start` ran `self.mesh.active(True)` and
`self.mesh.add_peer(BROADCAST_ADDR)`: the broadcast address is
link-registered but is never a key of `self.peers`. -/
def start_state : MeshState :=
  { initial_state with registered := [BROADCAST_ADDR] }

/-- The operations that touch the shared state during a run, each packaged
with the transport oracle it consumes. -/
inductive Op where
  | recv : Bool → Addr → Op
  | addp : Bool → Addr → Op
  | removep : Addr → Op
  | sendm : (Nat → Bool) → String → Addr → Op
  | notify : (Nat → Nat → Bool) → Op
  | tick : Nat → Op

/-- Effect of one operation on the state. -/
def applyOp : Op → MeshState → MeshState
  | Op.recv r s, st => receiver_step r st s
  | Op.addp r a, st => add_peer r st a
  | Op.removep a, st => remove_peer st a
  | Op.sendm o m a, st => (send_message o st m a).2.1
  | Op.notify os, st => (notify_cycle os st).2.1
  | Op.tick n, st => { st with now := st.now + n }

/-- Effect of a sequence of operations. -/
def applyOps : List Op → MeshState → MeshState
  | [], st => st
  | op :: ops, st => applyOps ops (applyOp op st)

/-- Reachability invariant: every key of the `self.peers` dictionary is
link-registered (the pair is created together in `add_peer` and destroyed
together in `remove_peer`). -/
def Inv (st : MeshState) : Prop := ∀ kv ∈ st.peers, kv.1 ∈ st.registered

instance (st : MeshState) : Decidable (Inv st) := by
  unfold Inv; infer_instance

/-- The trace of `n` failing attempts of one `send_message` call: a 1-unit
sleep separates consecutive attempts and the last attempt (the one reaching
the eviction threshold) is not followed by a sleep. -/
def failTrace (addr : Addr) (msg : String) : Nat → List Ev
  | 0 => []
  | 1 => [Ev.asend addr msg false]
  | n + 2 => Ev.asend addr msg false :: Ev.sleep 1 :: failTrace addr msg (n + 1)

/-- The trace of `j` failing attempts followed by one successful attempt. -/
def succTrace (addr : Addr) (msg : String) : Nat → List Ev
  | 0 => [Ev.asend addr msg true]
  | j + 1 => Ev.asend addr msg false :: Ev.sleep 1 :: succTrace addr msg j

theorem findPeer_mem {ps : List (Addr × Peer)} {a : Addr} {p : Peer}
    (h : findPeer ps a = some p) : (a, p) ∈ ps := by
  induction ps with
  | nil => simp [findPeer] at h
  | cons kv ps ih =>
    obtain ⟨k, v⟩ := kv
    by_cases hk : k = a
    · subst hk
      simp [findPeer] at h
      subst h
      exact List.mem_cons_self _ _
    · simp [findPeer, hk] at h
      exact List.mem_cons_of_mem _ (ih h)

theorem findPeer_dictSetFail_self (ps : List (Addr × Peer)) (a : Addr) (n : Nat) :
    findPeer (dictSetFail ps a n) a =
      (findPeer ps a).map (fun p => { p with failure_count := n }) := by
  induction ps with
  | nil => simp [findPeer, dictSetFail]
  | cons kv ps ih =>
    obtain ⟨k, v⟩ := kv
    by_cases hk : k = a
    · subst hk; simp [findPeer, dictSetFail]
    · simp [findPeer, dictSetFail, hk, ih]

theorem findPeer_dictSetFail_ne {b a : Addr} (ps : List (Addr × Peer)) (n : Nat)
    (hne : b ≠ a) : findPeer (dictSetFail ps a n) b = findPeer ps b := by
  have hab : a ≠ b := Ne.symm hne
  induction ps with
  | nil => simp [findPeer, dictSetFail]
  | cons kv ps ih =>
    obtain ⟨k, v⟩ := kv
    by_cases hk : k = a
    · simp [findPeer, dictSetFail, hk, hab, ih]
    · by_cases hb : k = b
      · simp [findPeer, dictSetFail, hk, hb, hne]
      · simp [findPeer, dictSetFail, hk, hb, ih]

theorem dictSetFail_dictSetFail (ps : List (Addr × Peer)) (a : Addr) (m n : Nat) :
    dictSetFail (dictSetFail ps a m) a n = dictSetFail ps a n := by
  induction ps with
  | nil => simp [dictSetFail]
  | cons kv ps ih =>
    obtain ⟨k, v⟩ := kv
    by_cases hk : k = a
    · subst hk; simp [dictSetFail, ih]
    · simp [dictSetFail, hk, ih]

theorem findPeer_dictErase_self (ps : List (Addr × Peer)) (a : Addr) :
    findPeer (dictErase ps a) a = none := by
  induction ps with
  | nil => simp [findPeer, dictErase]
  | cons kv ps ih =>
    obtain ⟨k, v⟩ := kv
    by_cases hk : k = a
    · subst hk; simp [dictErase, ih]
    · simp [dictErase, findPeer, hk, ih]

theorem findPeer_dictErase_ne {b a : Addr} (ps : List (Addr × Peer))
    (hne : b ≠ a) : findPeer (dictErase ps a) b = findPeer ps b := by
  have hab : a ≠ b := Ne.symm hne
  induction ps with
  | nil => simp [findPeer, dictErase]
  | cons kv ps ih =>
    obtain ⟨k, v⟩ := kv
    by_cases hk : k = a
    · simp [dictErase, findPeer, hk, hab, ih]
    · by_cases hb : k = b
      · simp [dictErase, findPeer, hk, hb, hne]
      · simp [dictErase, findPeer, hk, hb, ih]

theorem mem_dictErase {kv : Addr × Peer} {ps : List (Addr × Peer)} {a : Addr}
    (h : kv ∈ dictErase ps a) : kv ∈ ps ∧ kv.1 ≠ a := by
  induction ps with
  | nil => simp [dictErase] at h
  | cons hd ps ih =>
    obtain ⟨k, v⟩ := hd
    by_cases hk : k = a
    · subst hk
      simp [dictErase] at h
      have := ih h
      exact ⟨List.mem_cons_of_mem _ this.1, this.2⟩
    · simp [dictErase, hk] at h
      rcases h with h | h
      · subst h; exact ⟨List.mem_cons_self _ _, hk⟩
      · have := ih h
        exact ⟨List.mem_cons_of_mem _ this.1, this.2⟩

theorem mem_eraseAddr {b : Addr} {l : List Addr} {a : Addr} :
    b ∈ eraseAddr l a ↔ b ∈ l ∧ b ≠ a := by
  induction l with
  | nil => simp [eraseAddr]
  | cons x xs ih =>
    by_cases hx : x = a
    · rw [show eraseAddr (x :: xs) a = eraseAddr xs a by simp [eraseAddr, hx], ih]
      constructor
      · rintro ⟨h1, h2⟩; exact ⟨List.mem_cons_of_mem _ h1, h2⟩
      · rintro ⟨h1, h2⟩
        rcases List.mem_cons.mp h1 with h | h
        · exact absurd (h.trans hx) h2
        · exact ⟨h, h2⟩
    · rw [show eraseAddr (x :: xs) a = x :: eraseAddr xs a by simp [eraseAddr, hx]]
      constructor
      · intro h
        rcases List.mem_cons.mp h with h | h
        · exact ⟨List.mem_cons.mpr (Or.inl h), fun hc => hx (h.symm.trans hc)⟩
        · rcases ih.mp h with ⟨h1, h2⟩
          exact ⟨List.mem_cons_of_mem _ h1, h2⟩
      · rintro ⟨h1, h2⟩
        rcases List.mem_cons.mp h1 with h | h
        · exact List.mem_cons.mpr (Or.inl h)
        · exact List.mem_cons_of_mem _ (ih.mpr ⟨h, h2⟩)

theorem findPeer_append_of_none {ps : List (Addr × Peer)} {a : Addr}
    (h : findPeer ps a = none) (qs : List (Addr × Peer)) :
    findPeer (ps ++ qs) a = findPeer qs a := by
  induction ps with
  | nil => simp
  | cons kv ps ih =>
    obtain ⟨k, v⟩ := kv
    by_cases hk : k = a
    · subst hk; simp [findPeer] at h
    · simp [findPeer, hk] at h ⊢
      exact ih h

theorem findPeer_dictSet_self {ps : List (Addr × Peer)} {a : Addr} {q : Peer}
    (h : findPeer ps a = some q) (p : Peer) :
    findPeer (dictSet ps a p) a = some p := by
  induction ps with
  | nil => simp [findPeer] at h
  | cons kv ps ih =>
    obtain ⟨k, v⟩ := kv
    by_cases hk : k = a
    · subst hk; simp [dictSet, findPeer]
    · simp [findPeer, hk] at h
      simp [dictSet, findPeer, hk]
      exact ih h

theorem findPeer_dictInsert_self (ps : List (Addr × Peer)) (a : Addr) (p : Peer) :
    findPeer (dictInsert ps a p) a = some p := by
  unfold dictInsert
  cases h : findPeer ps a with
  | none =>
    rw [findPeer_append_of_none h]
    simp [findPeer]
  | some q => exact findPeer_dictSet_self h p

theorem findPeer_dictSet_ne {b a : Addr} (ps : List (Addr × Peer)) (p : Peer)
    (hne : b ≠ a) : findPeer (dictSet ps a p) b = findPeer ps b := by
  have hab : a ≠ b := Ne.symm hne
  induction ps with
  | nil => simp [dictSet]
  | cons kv ps ih =>
    obtain ⟨k, v⟩ := kv
    by_cases hk : k = a
    · simp [dictSet, findPeer, hk, hab, ih]
    · by_cases hb : k = b
      · simp [dictSet, findPeer, hk, hb, hne]
      · simp [dictSet, findPeer, hk, hb, ih]

theorem findPeer_append (ps qs : List (Addr × Peer)) (a : Addr) :
    findPeer (ps ++ qs) a =
      match findPeer ps a with
      | some p => some p
      | none => findPeer qs a := by
  induction ps with
  | nil => simp [findPeer]
  | cons kv ps ih =>
    obtain ⟨k, v⟩ := kv
    by_cases hk : k = a
    · simp [findPeer, hk]
    · simp [findPeer, hk, ih]

theorem findPeer_dictInsert_ne {b a : Addr} (ps : List (Addr × Peer)) (p : Peer)
    (hne : b ≠ a) : findPeer (dictInsert ps a p) b = findPeer ps b := by
  have hab : a ≠ b := Ne.symm hne
  unfold dictInsert
  cases h : findPeer ps a with
  | none =>
    rw [findPeer_append]
    cases hb : findPeer ps b with
    | none => simp [findPeer, hab]
    | some q => simp
  | some q => exact findPeer_dictSet_ne ps p hne

theorem setFailure_setFailure (st : MeshState) (a : Addr) (m n : Nat) :
    setFailure (setFailure st a m) a n = setFailure st a n := by
  simp [setFailure, dictSetFail_dictSetFail]

theorem findPeer_setFailure_self (st : MeshState) (a : Addr) (n : Nat) :
    findPeer (setFailure st a n).peers a =
      (findPeer st.peers a).map (fun p => { p with failure_count := n }) :=
  findPeer_dictSetFail_self st.peers a n

theorem registered_setFailure (st : MeshState) (a : Addr) (n : Nat) :
    (setFailure st a n).registered = st.registered := rfl

theorem is_in_mesh_setFailure (st : MeshState) (a : Addr) (n : Nat) :
    (setFailure st a n).is_in_mesh = st.is_in_mesh := rfl

theorem is_in_mesh_remove_peer (st : MeshState) (a : Addr) :
    (remove_peer st a).is_in_mesh = st.is_in_mesh := by
  unfold remove_peer; split <;> rfl

theorem is_in_mesh_add_peer (regOk : Bool) (st : MeshState) (a : Addr) :
    (add_peer regOk st a).is_in_mesh = st.is_in_mesh := by
  unfold add_peer; split
  · rfl
  · split <;> rfl

theorem sendTargets_asend (a : Addr) (m : String) (ok : Bool) (tr : List Ev) :
    sendTargets (Ev.asend a m ok :: tr) = a :: sendTargets tr := rfl

theorem sendTargets_sleep (n : Nat) (tr : List Ev) :
    sendTargets (Ev.sleep n :: tr) = sendTargets tr := rfl

theorem smLoop_none {st : MeshState} {addr : Addr} (o : Nat → Bool)
    (msg : String) (fuel k : Nat) (h : findPeer st.peers addr = none) :
    smLoop o msg addr (fuel + 1) k st =
      (SendResult.keyError, st, [Ev.asend addr msg (o k)]) := by
  simp [smLoop, h]

theorem smLoop_true {st : MeshState} {addr : Addr} {p : Peer} (o : Nat → Bool)
    (msg : String) (fuel k : Nat) (h : findPeer st.peers addr = some p)
    (hk : o k = true) :
    smLoop o msg addr (fuel + 1) k st =
      (SendResult.success, setFailure st addr 0, [Ev.asend addr msg true]) := by
  simp [smLoop, h, hk]

theorem smLoop_false_evict {st : MeshState} {addr : Addr} {p : Peer}
    (o : Nat → Bool) (msg : String) (fuel k : Nat)
    (h : findPeer st.peers addr = some p) (hk : o k = false)
    (h5 : 5 ≤ p.failure_count + 1) :
    smLoop o msg addr (fuel + 1) k st =
      (SendResult.evicted,
        remove_peer (setFailure st addr (p.failure_count + 1)) addr,
        [Ev.asend addr msg false]) := by
  simp [smLoop, h, hk, h5]

theorem smLoop_false_retry {st : MeshState} {addr : Addr} {p : Peer}
    (o : Nat → Bool) (msg : String) (fuel k : Nat)
    (h : findPeer st.peers addr = some p) (hk : o k = false)
    (h5 : p.failure_count + 1 < 5) :
    smLoop o msg addr (fuel + 1) k st =
      ((smLoop o msg addr fuel (k + 1) (setFailure st addr (p.failure_count + 1))).1,
        (smLoop o msg addr fuel (k + 1) (setFailure st addr (p.failure_count + 1))).2.1,
        Ev.asend addr msg false :: Ev.sleep 1 ::
          (smLoop o msg addr fuel (k + 1) (setFailure st addr (p.failure_count + 1))).2.2) := by
  simp [smLoop, h, hk, Nat.not_le.mpr h5]

theorem smLoop_evict_all_fail (o : Nat → Bool) (msg : String) (addr : Addr) :
    ∀ n k st p, findPeer st.peers addr = some p → p.failure_count + n = 5 →
      1 ≤ n → (∀ i, i < n → o (k + i) = false) → ∀ fuel, n ≤ fuel →
      smLoop o msg addr fuel k st =
        (SendResult.evicted, remove_peer (setFailure st addr 5) addr,
          failTrace addr msg n) := by
  intro n
  induction n with
  | zero => intro k st p _ _ h1; omega
  | succ m ih =>
    intro k st p h hc _ hall fuel hfuel
    obtain ⟨f, rfl⟩ : ∃ f, fuel = f + 1 := ⟨fuel - 1, by omega⟩
    have hk0 : o (k + 0) = false := hall 0 (by omega)
    rw [Nat.add_zero] at hk0
    by_cases hm : m = 0
    · subst hm
      rw [smLoop_false_evict o msg f k h hk0 (by omega)]
      have h15 : p.failure_count + 1 = 5 := by omega
      rw [h15]
      simp [failTrace]
    · have hlt : p.failure_count + 1 < 5 := by omega
      rw [smLoop_false_retry o msg f k h hk0 hlt]
      have hfind : findPeer (setFailure st addr (p.failure_count + 1)).peers addr
          = some { p with failure_count := p.failure_count + 1 } := by
        rw [findPeer_setFailure_self, h]; rfl
      obtain ⟨m', rfl⟩ : ∃ m', m = m' + 1 := ⟨m - 1, by omega⟩
      have hrec := ih (k + 1) (setFailure st addr (p.failure_count + 1)) _ hfind
        (by simp; omega) (by omega)
        (fun i hi => by
          have := hall (i + 1) (by omega)
          rwa [show k + 1 + i = k + (i + 1) by omega])
        f (by omega)
      rw [hrec, setFailure_setFailure]
      simp [failTrace]

theorem smLoop_success_at (o : Nat → Bool) (msg : String) (addr : Addr) :
    ∀ j k st p, findPeer st.peers addr = some p → p.failure_count + j < 5 →
      (∀ i, i < j → o (k + i) = false) → o (k + j) = true → ∀ fuel, j < fuel →
      smLoop o msg addr fuel k st =
        (SendResult.success, setFailure st addr 0, succTrace addr msg j) := by
  intro j
  induction j with
  | zero =>
    intro k st p h _ _ hsucc fuel hfuel
    obtain ⟨f, rfl⟩ : ∃ f, fuel = f + 1 := ⟨fuel - 1, by omega⟩
    rw [Nat.add_zero] at hsucc
    rw [smLoop_true o msg f k h hsucc]
    simp [succTrace]
  | succ j ih =>
    intro k st p h hc hall hsucc fuel hfuel
    obtain ⟨f, rfl⟩ : ∃ f, fuel = f + 1 := ⟨fuel - 1, by omega⟩
    have hk0 : o (k + 0) = false := hall 0 (by omega)
    rw [Nat.add_zero] at hk0
    have hlt : p.failure_count + 1 < 5 := by omega
    rw [smLoop_false_retry o msg f k h hk0 hlt]
    have hfind : findPeer (setFailure st addr (p.failure_count + 1)).peers addr
        = some { p with failure_count := p.failure_count + 1 } := by
      rw [findPeer_setFailure_self, h]; rfl
    have hrec := ih (k + 1) (setFailure st addr (p.failure_count + 1)) _ hfind
      (by simp; omega)
      (fun i hi => by
        have := hall (i + 1) (by omega)
        rwa [show k + 1 + i = k + (i + 1) by omega])
      (by rwa [show k + 1 + j = k + (j + 1) by omega])
      f (by omega)
    rw [hrec, setFailure_setFailure]
    simp [succTrace]

theorem attemptCount_asend (a : Addr) (m : String) (ok : Bool) (tr : List Ev) :
    attemptCount (Ev.asend a m ok :: tr) = attemptCount tr + 1 := by
  simp [attemptCount, sendTargets_asend]

theorem attemptCount_sleep (n : Nat) (tr : List Ev) :
    attemptCount (Ev.sleep n :: tr) = attemptCount tr := by
  simp [attemptCount, sendTargets_sleep]

theorem smLoop_bounded (o : Nat → Bool) (msg : String) (addr : Addr) :
    ∀ n k st p, findPeer st.peers addr = some p → 5 ≤ p.failure_count + n →
      1 ≤ n → ∀ fuel, n ≤ fuel →
      ((smLoop o msg addr fuel k st).1 = SendResult.success ∨
        (smLoop o msg addr fuel k st).1 = SendResult.evicted) ∧
      attemptCount (smLoop o msg addr fuel k st).2.2 ≤ n ∧
      AltTrace addr msg (smLoop o msg addr fuel k st).2.2 := by
  intro n
  induction n with
  | zero => intro k st p _ _ h1; omega
  | succ m ih =>
    intro k st p h hc _ fuel hfuel
    obtain ⟨f, rfl⟩ : ∃ f, fuel = f + 1 := ⟨fuel - 1, by omega⟩
    cases ho : o k with
    | true =>
      rw [smLoop_true o msg f k h ho]
      refine ⟨Or.inl rfl, ?_, AltTrace.single true⟩
      simp [attemptCount, sendTargets]
    | false =>
      by_cases h5 : 5 ≤ p.failure_count + 1
      · rw [smLoop_false_evict o msg f k h ho h5]
        refine ⟨Or.inr rfl, ?_, AltTrace.single false⟩
        simp [attemptCount, sendTargets]
      · have hlt : p.failure_count + 1 < 5 := by omega
        rw [smLoop_false_retry o msg f k h ho hlt]
        have hfind : findPeer (setFailure st addr (p.failure_count + 1)).peers addr
            = some { p with failure_count := p.failure_count + 1 } := by
          rw [findPeer_setFailure_self, h]; rfl
        have hrec := ih (k + 1) (setFailure st addr (p.failure_count + 1)) _ hfind
          (by simp; omega) (by omega) f (by omega)
        refine ⟨hrec.1, ?_, AltTrace.cons false _ hrec.2.2⟩
        rw [attemptCount_asend, attemptCount_sleep]
        omega

theorem smLoop_events (o : Nat → Bool) (msg : String) (addr : Addr) :
    ∀ fuel k st e, e ∈ (smLoop o msg addr fuel k st).2.2 →
      (∃ ok, e = Ev.asend addr msg ok) ∨ e = Ev.sleep 1 := by
  intro fuel
  induction fuel with
  | zero => intro k st e he; simp [smLoop] at he
  | succ f ih =>
    intro k st e he
    cases h : findPeer st.peers addr with
    | none =>
      rw [smLoop_none o msg f k h] at he
      simp at he
      exact Or.inl ⟨o k, he⟩
    | some p =>
      cases ho : o k with
      | true =>
        rw [smLoop_true o msg f k h ho] at he
        simp at he
        exact Or.inl ⟨true, he⟩
      | false =>
        by_cases h5 : 5 ≤ p.failure_count + 1
        · rw [smLoop_false_evict o msg f k h ho h5] at he
          simp at he
          exact Or.inl ⟨false, he⟩
        · have hlt : p.failure_count + 1 < 5 := by omega
          rw [smLoop_false_retry o msg f k h ho hlt] at he
          simp at he
          rcases he with he | he | he
          · exact Or.inl ⟨false, he⟩
          · exact Or.inr he
          · exact ih (k + 1) _ e he

theorem smLoop_head (o : Nat → Bool) (msg : String) (addr : Addr)
    (f k : Nat) (st : MeshState) :
    ∃ ok tr, (smLoop o msg addr (f + 1) k st).2.2 = Ev.asend addr msg ok :: tr := by
  cases h : findPeer st.peers addr with
  | none => exact ⟨o k, [], by rw [smLoop_none o msg f k h]⟩
  | some p =>
    cases ho : o k with
    | true => exact ⟨true, [], by rw [smLoop_true o msg f k h ho]⟩
    | false =>
      by_cases h5 : 5 ≤ p.failure_count + 1
      · exact ⟨false, [], by rw [smLoop_false_evict o msg f k h ho h5]⟩
      · exact ⟨false, Ev.sleep 1 ::
          (smLoop o msg addr f (k + 1)
            (setFailure st addr (p.failure_count + 1))).2.2,
          by rw [smLoop_false_retry o msg f k h ho (by omega)]⟩

theorem is_in_mesh_smLoop (o : Nat → Bool) (msg : String) (addr : Addr) :
    ∀ fuel k st, ((smLoop o msg addr fuel k st).2.1).is_in_mesh = st.is_in_mesh := by
  intro fuel
  induction fuel with
  | zero => intro k st; simp [smLoop]
  | succ f ih =>
    intro k st
    cases h : findPeer st.peers addr with
    | none => rw [smLoop_none o msg f k h]
    | some p =>
      cases ho : o k with
      | true => rw [smLoop_true o msg f k h ho]; rfl
      | false =>
        by_cases h5 : 5 ≤ p.failure_count + 1
        · rw [smLoop_false_evict o msg f k h ho h5]
          rw [show ((SendResult.evicted,
              remove_peer (setFailure st addr (p.failure_count + 1)) addr,
              [Ev.asend addr msg false]) :
                SendResult × MeshState × List Ev).2.1 =
              remove_peer (setFailure st addr (p.failure_count + 1)) addr from rfl]
          rw [is_in_mesh_remove_peer, is_in_mesh_setFailure]
        · rw [smLoop_false_retry o msg f k h ho (by omega)]
          exact (ih (k + 1) _).trans (is_in_mesh_setFailure st addr _)

theorem notify_go_nil (os : Nat → Nat → Bool) (msg : String) (i : Nat)
    (st : MeshState) : notify_go os msg i st [] = (false, st, [Ev.sleep 5]) := rfl

theorem notify_go_cons_key {os : Nat → Nat → Bool} {msg : String} {i : Nat}
    {st : MeshState} {a : Addr} (rest : List Addr)
    (h : (send_message (os i) st msg a).1 = SendResult.keyError) :
    notify_go os msg i st (a :: rest) =
      (true, (send_message (os i) st msg a).2.1,
        (send_message (os i) st msg a).2.2) := by
  simp [notify_go, h]

theorem notify_go_cons_ok {os : Nat → Nat → Bool} {msg : String} {i : Nat}
    {st : MeshState} {a : Addr} (rest : List Addr)
    (h : (send_message (os i) st msg a).1 ≠ SendResult.keyError) :
    notify_go os msg i st (a :: rest) =
      ((notify_go os msg (i + 1) ((send_message (os i) st msg a).2.1) rest).1,
        (notify_go os msg (i + 1) ((send_message (os i) st msg a).2.1) rest).2.1,
        (send_message (os i) st msg a).2.2 ++
          (notify_go os msg (i + 1) ((send_message (os i) st msg a).2.1) rest).2.2) := by
  cases hr : (send_message (os i) st msg a).1 with
  | success => simp [notify_go, hr]
  | evicted => simp [notify_go, hr]
  | keyError => exact absurd hr h
  | fuelOut => simp [notify_go, hr]

theorem is_in_mesh_notify_go (os : Nat → Nat → Bool) (msg : String) :
    ∀ l i st, ((notify_go os msg i st l).2.1).is_in_mesh = st.is_in_mesh := by
  intro l
  induction l with
  | nil => intro i st; rfl
  | cons a rest ih =>
    intro i st
    by_cases h : (send_message (os i) st msg a).1 = SendResult.keyError
    · rw [notify_go_cons_key rest h]
      exact is_in_mesh_smLoop (os i) msg a 6 0 st
    · rw [notify_go_cons_ok rest h]
      exact (ih (i + 1) _).trans (is_in_mesh_smLoop (os i) msg a 6 0 st)

theorem notify_go_targets (os : Nat → Nat → Bool) (msg : String) :
    ∀ l i st e, e ∈ (notify_go os msg i st l).2.2 →
      (∃ a ok, a ∈ l ∧ e = Ev.asend a msg ok) ∨ ∃ n, e = Ev.sleep n := by
  intro l
  induction l with
  | nil =>
    intro i st e he
    rw [notify_go_nil] at he
    simp at he
    exact Or.inr ⟨5, he⟩
  | cons a rest ih =>
    intro i st e he
    by_cases h : (send_message (os i) st msg a).1 = SendResult.keyError
    · rw [notify_go_cons_key rest h] at he
      rcases smLoop_events (os i) msg a 6 0 st e he with ⟨ok, rfl⟩ | rfl
      · exact Or.inl ⟨a, ok, List.mem_cons_self _ _, rfl⟩
      · exact Or.inr ⟨1, rfl⟩
    · rw [notify_go_cons_ok rest h] at he
      rcases List.mem_append.mp he with he | he
      · rcases smLoop_events (os i) msg a 6 0 st e he with ⟨ok, rfl⟩ | rfl
        · exact Or.inl ⟨a, ok, List.mem_cons_self _ _, rfl⟩
        · exact Or.inr ⟨1, rfl⟩
      · rcases ih (i + 1) _ e he with ⟨b, ok, hb, rfl⟩ | hsleep
        · exact Or.inl ⟨b, ok, List.mem_cons_of_mem _ hb, rfl⟩
        · exact Or.inr hsleep

theorem notify_go_complete (os : Nat → Nat → Bool) (msg : String) :
    ∀ l i st, (notify_go os msg i st l).1 = false →
      (∀ a, a ∈ l → ∃ ok, Ev.asend a msg ok ∈ (notify_go os msg i st l).2.2) ∧
      ∃ tr, (notify_go os msg i st l).2.2 = tr ++ [Ev.sleep 5] := by
  intro l
  induction l with
  | nil =>
    intro i st _
    refine ⟨fun a ha => absurd ha (List.not_mem_nil a), ⟨[], rfl⟩⟩
  | cons a rest ih =>
    intro i st hok
    by_cases h : (send_message (os i) st msg a).1 = SendResult.keyError
    · rw [notify_go_cons_key rest h] at hok
      simp at hok
    · rw [notify_go_cons_ok rest h] at hok
      have hrec := ih (i + 1) ((send_message (os i) st msg a).2.1) hok
      rw [notify_go_cons_ok rest h]
      constructor
      · intro b hb
        rcases List.mem_cons.mp hb with rfl | hb
        · obtain ⟨ok, tr, htr⟩ := smLoop_head (os i) msg b 5 0 st
          refine ⟨ok, List.mem_append_left _ ?_⟩
          rw [show (send_message (os i) st msg b).2.2 =
              (smLoop (os i) msg b 6 0 st).2.2 from rfl, htr]
          exact List.mem_cons_self _ _
        · obtain ⟨ok, hmem⟩ := hrec.1 b hb
          exact ⟨ok, List.mem_append_right _ hmem⟩
      · obtain ⟨tr, htr⟩ := hrec.2
        exact ⟨(send_message (os i) st msg a).2.2 ++ tr, by rw [htr, List.append_assoc]⟩

theorem beaconRun_spec (flags bo : Nat → Bool) :
    ∀ n i, (∀ j, j < n → flags (i + j) = false) → flags (i + n) = true →
      ∀ fuel, n < fuel → beaconRun flags bo fuel i = (beaconTrace bo i n, true) := by
  intro n
  induction n with
  | zero =>
    intro i _ htrue fuel hfuel
    obtain ⟨f, rfl⟩ : ∃ f, fuel = f + 1 := ⟨fuel - 1, by omega⟩
    rw [Nat.add_zero] at htrue
    simp [beaconRun, htrue, beaconTrace]
  | succ n ih =>
    intro i hfalse htrue fuel hfuel
    obtain ⟨f, rfl⟩ : ∃ f, fuel = f + 1 := ⟨fuel - 1, by omega⟩
    have h0 : flags i = false := by
      have := hfalse 0 (by omega)
      rwa [Nat.add_zero] at this
    have hrec := ih (i + 1)
      (fun j hj => by
        have := hfalse (j + 1) (by omega)
        rwa [show i + 1 + j = i + (j + 1) by omega])
      (by rwa [show i + 1 + n = i + (n + 1) by omega])
      f (by omega)
    simp [beaconRun, h0, hrec, beaconTrace]

theorem beaconTrace_targets (bo : Nat → Bool) :
    ∀ n i, sendTargets (beaconTrace bo i n) = List.replicate n BROADCAST_ADDR := by
  intro n
  induction n with
  | zero => intro i; rfl
  | succ n ih =>
    intro i
    simp [beaconTrace, sendTargets_asend, sendTargets_sleep, ih, List.replicate]

theorem send_message_keyError_iff (o : Nat → Bool) (st : MeshState)
    (msg : String) (addr : Addr) :
    (send_message o st msg addr).1 = SendResult.keyError ↔
      findPeer st.peers addr = none := by
  constructor
  · intro hkey
    cases h : findPeer st.peers addr with
    | none => rfl
    | some p =>
      have hb := smLoop_bounded o msg addr 5 0 st p h (by omega) (by omega) 6 (by omega)
      rw [show send_message o st msg addr = smLoop o msg addr 6 0 st from rfl] at hkey
      rcases hb.1 with h1 | h1 <;> rw [h1] at hkey <;> exact SendResult.noConfusion hkey
  · intro hnone
    rw [show send_message o st msg addr = smLoop o msg addr 6 0 st from rfl,
      smLoop_none o msg 5 0 hnone]

theorem Inv_findPeer_registered {st : MeshState} {a : Addr} {p : Peer}
    (hInv : Inv st) (h : findPeer st.peers a = some p) : a ∈ st.registered :=
  hInv (a, p) (findPeer_mem h)

theorem mem_dictSetFail {kv : Addr × Peer} {ps : List (Addr × Peer)} {a : Addr}
    {n : Nat} (h : kv ∈ dictSetFail ps a n) : ∃ v, (kv.1, v) ∈ ps := by
  induction ps with
  | nil => simp [dictSetFail] at h
  | cons hd ps ih =>
    obtain ⟨k, v⟩ := hd
    by_cases hk : k = a
    · rw [show dictSetFail ((k, v) :: ps) a n =
          (k, { v with failure_count := n }) :: dictSetFail ps a n by
            simp [dictSetFail, hk]] at h
      rcases List.mem_cons.mp h with rfl | h
      · exact ⟨v, List.mem_cons_self _ _⟩
      · obtain ⟨w, hw⟩ := ih h
        exact ⟨w, List.mem_cons_of_mem _ hw⟩
    · rw [show dictSetFail ((k, v) :: ps) a n = (k, v) :: dictSetFail ps a n by
          simp [dictSetFail, hk]] at h
      rcases List.mem_cons.mp h with rfl | h
      · exact ⟨v, List.mem_cons_self _ _⟩
      · obtain ⟨w, hw⟩ := ih h
        exact ⟨w, List.mem_cons_of_mem _ hw⟩

theorem Inv_setFailure {st : MeshState} (a : Addr) (n : Nat) (hInv : Inv st) :
    Inv (setFailure st a n) := by
  intro kv hkv
  obtain ⟨v, hv⟩ := mem_dictSetFail hkv
  exact hInv (kv.1, v) hv

theorem Inv_remove_peer {st : MeshState} (a : Addr) (hInv : Inv st) :
    Inv (remove_peer st a) := by
  unfold remove_peer
  split
  · intro kv hkv
    obtain ⟨h1, h2⟩ := mem_dictErase hkv
    exact mem_eraseAddr.mpr ⟨hInv kv h1, h2⟩
  · exact hInv

theorem Inv_add_peer {st : MeshState} (regOk : Bool) (a : Addr) (hInv : Inv st) :
    Inv (add_peer regOk st a) := by
  unfold add_peer
  split
  · exact hInv
  · rename_i hreg
    split
    · cases hf : findPeer st.peers a with
      | some p => exact absurd (Inv_findPeer_registered hInv hf) hreg
      | none =>
        intro kv hkv
        rw [show dictInsert st.peers a ⟨a, 0, st.now⟩ =
            st.peers ++ [(a, ⟨a, 0, st.now⟩)] by simp [dictInsert, hf]] at hkv
        rcases List.mem_append.mp hkv with h | h
        · exact List.mem_append_left _ (hInv kv h)
        · rcases List.mem_singleton.mp h with rfl
          exact List.mem_append_right _ (List.mem_singleton.mpr rfl)
    · exact hInv

theorem Inv_smLoop (o : Nat → Bool) (msg : String) (addr : Addr) :
    ∀ fuel k st, Inv st → Inv (smLoop o msg addr fuel k st).2.1 := by
  intro fuel
  induction fuel with
  | zero => intro k st hInv; simpa [smLoop] using hInv
  | succ f ih =>
    intro k st hInv
    cases h : findPeer st.peers addr with
    | none => rw [smLoop_none o msg f k h]; exact hInv
    | some p =>
      cases ho : o k with
      | true => rw [smLoop_true o msg f k h ho]; exact Inv_setFailure addr 0 hInv
      | false =>
        by_cases h5 : 5 ≤ p.failure_count + 1
        · rw [smLoop_false_evict o msg f k h ho h5]
          exact Inv_remove_peer addr (Inv_setFailure addr _ hInv)
        · rw [smLoop_false_retry o msg f k h ho (by omega)]
          exact ih (k + 1) _ (Inv_setFailure addr _ hInv)

theorem Inv_receiver_step {st : MeshState} (regOk : Bool) (sender : Addr)
    (hInv : Inv st) : Inv (receiver_step regOk st sender) := by
  unfold receiver_step
  split
  · exact hInv
  · intro kv hkv
    exact Inv_add_peer regOk sender hInv kv hkv

theorem Inv_notify_go (os : Nat → Nat → Bool) (msg : String) :
    ∀ l i st, Inv st → Inv (notify_go os msg i st l).2.1 := by
  intro l
  induction l with
  | nil => intro i st hInv; exact hInv
  | cons a rest ih =>
    intro i st hInv
    by_cases h : (send_message (os i) st msg a).1 = SendResult.keyError
    · rw [notify_go_cons_key rest h]
      exact Inv_smLoop (os i) msg a 6 0 st hInv
    · rw [notify_go_cons_ok rest h]
      exact ih (i + 1) _ (Inv_smLoop (os i) msg a 6 0 st hInv)

theorem Inv_applyOp (op : Op) {st : MeshState} (hInv : Inv st) :
    Inv (applyOp op st) := by
  cases op with
  | recv r s => exact Inv_receiver_step r s hInv
  | addp r a => exact Inv_add_peer r a hInv
  | removep a => exact Inv_remove_peer a hInv
  | sendm o m a => exact Inv_smLoop o m a 6 0 st hInv
  | notify os => exact Inv_notify_go os "Hi" st.registered 0 st hInv
  | tick n => exact hInv

theorem Inv_applyOps : ∀ (ops : List Op) (st : MeshState), Inv st →
    Inv (applyOps ops st) := by
  intro ops
  induction ops with
  | nil => intro st hInv; exact hInv
  | cons op ops ih => intro st hInv; exact ih _ (Inv_applyOp op hInv)

theorem Inv_start_state : Inv start_state := by decide

theorem attemptCount_failTrace (addr : Addr) (msg : String) :
    ∀ n, attemptCount (failTrace addr msg n) = n := by
  intro n
  induction n with
  | zero => rfl
  | succ m ih =>
    cases m with
    | zero => rfl
    | succ m' =>
      rw [show failTrace addr msg (m' + 1 + 1) =
          Ev.asend addr msg false :: Ev.sleep 1 :: failTrace addr msg (m' + 1)
          from rfl, attemptCount_asend, attemptCount_sleep, ih]

theorem is_in_mesh_applyOp (op : Op) (st : MeshState)
    (h : st.is_in_mesh = true) : (applyOp op st).is_in_mesh = true := by
  cases op with
  | recv r s =>
    show (receiver_step r st s).is_in_mesh = true
    unfold receiver_step
    split
    · exact h
    · rfl
  | addp r a => exact (is_in_mesh_add_peer r st a).trans h
  | removep a => exact (is_in_mesh_remove_peer st a).trans h
  | sendm o m a => exact (is_in_mesh_smLoop o m a 6 0 st).trans h
  | notify os => exact (is_in_mesh_notify_go os "Hi" st.registered 0 st).trans h
  | tick n => exact h

/-- A concrete non-broadcast MAC address used by the witnesses. -/
def addrA : Addr := [1, 2, 3, 4, 5, 6]

/-- A concrete joined state holding the single peer `addrA`, both in the
`peers` dictionary (failure count 0) and link-registered. -/
def st1 : MeshState := ⟨true, [(addrA, ⟨addrA, 0, 0⟩)], [addrA], 0⟩

/-- A transport oracle for `notify_cycle` whose every `asend` succeeds. -/
def osT : Nat → Nat → Bool := fun _ _ => true

/-- C1, counterexample: in the post-`start` state (nothing but the broadcast
address link-registered, `is_in_mesh = false`), a frame arrives from `addrA`
and link registration FAILS (`regOk = false`) — yet `receiver_task` still
sets `is_in_mesh = true`, because the assignment follows `add_peer`
unconditionally and `add_peer` swallows the failure.  The peer is indeed not
added to the dictionary.  This refutes "if link registration fails for a
received frame, joined is not set to true". -/
theorem C1_counterexample :
    start_state.is_in_mesh = false ∧
    addrA ∉ start_state.registered ∧
    (receiver_step false start_state addrA).is_in_mesh = true ∧
    (receiver_step false start_state addrA).peers = [] := by decide

/-- C1 (amended): `is_in_mesh` starts false and is set to true by the first
received frame whose sender is not yet link-registered, whether or not link
registration succeeds; the peer is not added to the peers dictionary when
link registration fails. -/
theorem C1_join_on_any_unregistered_frame (regOk : Bool) (st : MeshState)
    (sender : Addr) (h : sender ∉ st.registered) :
    (receiver_step regOk st sender).is_in_mesh = true ∧
    (regOk = false → (receiver_step regOk st sender).peers = st.peers) ∧
    initial_state.is_in_mesh = false := by
  refine ⟨?_, ?_, rfl⟩
  · simp [receiver_step, h]
  · intro hr
    subst hr
    simp [receiver_step, add_peer, h]

/-- C1, witness: the amended statement at the counterexample's input. -/
theorem C1_witness :
    addrA ∉ start_state.registered ∧
    ((receiver_step false start_state addrA).is_in_mesh = true ∧
      (false = false → (receiver_step false start_state addrA).peers =
        start_state.peers) ∧
      initial_state.is_in_mesh = false) :=
  ⟨by decide, C1_join_on_any_unregistered_frame false start_state addrA (by decide)⟩

/-- C2: if the target peer is in the dictionary with failure count 0 and is
link-registered (true of every peer in any reachable state, `Inv`), and the
transport fails the first 5 attempts, then `send_message` returns having
evicted the peer: the result is `evicted`, the address is no longer a key of
the peers dictionary, and exactly 5 `asend` attempts were made — none after
the eviction. -/
theorem C2_eviction (o : Nat → Bool) (st : MeshState) (msg : String)
    (addr : Addr) (p : Peer)
    (hfind : findPeer st.peers addr = some p) (hcount : p.failure_count = 0)
    (hreg : addr ∈ st.registered) (hfail : ∀ k, k < 5 → o k = false) :
    (send_message o st msg addr).1 = SendResult.evicted ∧
    findPeer (send_message o st msg addr).2.1.peers addr = none ∧
    attemptCount (send_message o st msg addr).2.2 = 5 := by
  have hrun := smLoop_evict_all_fail o msg addr 5 0 st p hfind (by omega)
    (by omega) (fun i hi => by simpa using hfail i hi) 6 (by omega)
  rw [show send_message o st msg addr = smLoop o msg addr 6 0 st from rfl, hrun]
  refine ⟨rfl, ?_, attemptCount_failTrace addr msg 5⟩
  rw [show (remove_peer (setFailure st addr 5) addr).peers
      = dictErase (setFailure st addr 5).peers addr by
        unfold remove_peer
        rw [if_pos (by rwa [registered_setFailure])]]
  exact findPeer_dictErase_self _ addr

/-- C2, witness: the single peer `addrA` with failure count 0 and an
always-failing transport. -/
theorem C2_witness :
    findPeer st1.peers addrA = some ⟨addrA, 0, 0⟩ ∧
    (∀ k, k < 5 → (fun _ => false : Nat → Bool) k = false) ∧
    ((send_message (fun _ => false) st1 "Hi" addrA).1 = SendResult.evicted ∧
      findPeer (send_message (fun _ => false) st1 "Hi" addrA).2.1.peers addrA
        = none ∧
      attemptCount (send_message (fun _ => false) st1 "Hi" addrA).2.2 = 5) :=
  ⟨by decide, by decide,
    C2_eviction (fun _ => false) st1 "Hi" addrA ⟨addrA, 0, 0⟩ (by decide)
      (by decide) (by decide) (by decide)⟩

/-- C3, counterexample: in the post-`start` state the peers dictionary
(PeerTable) is EMPTY, yet the liveness cycle probes the broadcast address —
`notify_task` iterates `self.mesh.get_peers()`, the link-layer peer list,
not `PeerTable.all()`.  This refutes "takes a snapshot of PeerTable.all()". -/
theorem C3_counterexample :
    start_state.peers = [] ∧
    sendTargets (notify_cycle osT start_state).2.2 = [BROADCAST_ADDR] := by
  decide

/-- C3 (amended): each liveness-probe cycle takes a snapshot of the
TRANSPORT's registered peer list (`get_peers()`), and for each entry of that
snapshot sequentially invokes `send_message` with the literal payload
`"Hi"`; a completed cycle ends with the 5-time-unit sleep.  Every `asend` of
the cycle carries payload `"Hi"` and is addressed to a member of the
snapshot, and every snapshot member receives at least one attempt. -/
theorem C3_probe_cycle (os : Nat → Nat → Bool) (st : MeshState)
    (hok : (notify_cycle os st).1 = false) :
    (∀ a, a ∈ st.registered →
      ∃ ok, Ev.asend a "Hi" ok ∈ (notify_cycle os st).2.2) ∧
    (∀ e, e ∈ (notify_cycle os st).2.2 →
      (∃ a ok, a ∈ st.registered ∧ e = Ev.asend a "Hi" ok) ∨
      ∃ n, e = Ev.sleep n) ∧
    ∃ tr, (notify_cycle os st).2.2 = tr ++ [Ev.sleep 5] := by
  have hc := notify_go_complete os "Hi" st.registered 0 st hok
  exact ⟨hc.1, fun e he => notify_go_targets os "Hi" st.registered 0 st e he, hc.2⟩

/-- C3, witness: one registered, dictionary-known peer, all sends succeed. -/
theorem C3_witness :
    (notify_cycle osT st1).1 = false ∧
    ((∀ a, a ∈ st1.registered →
      ∃ ok, Ev.asend a "Hi" ok ∈ (notify_cycle osT st1).2.2) ∧
    (∀ e, e ∈ (notify_cycle osT st1).2.2 →
      (∃ a ok, a ∈ st1.registered ∧ e = Ev.asend a "Hi" ok) ∨
      ∃ n, e = Ev.sleep n) ∧
    ∃ tr, (notify_cycle osT st1).2.2 = tr ++ [Ev.sleep 5]) :=
  ⟨by decide, C3_probe_cycle osT st1 (by decide)⟩

/-- C4, counterexample: in the canonical post-`start` state, the liveness
cycle crashes — `send_message` raises an uncaught `KeyError` on the
broadcast address (reported as the task's crash flag), even though the
`asend` itself succeeded.  A per-peer condition thus escapes the component
boundary as an exception, refuting the containment claim. -/
theorem C4_counterexample :
    (notify_cycle osT start_state).1 = true ∧
    (send_message (fun _ => true) start_state "Hi" BROADCAST_ADDR).1 =
      SendResult.keyError := by decide

/-- C4 (amended): `add_peer` and `remove_peer` contain their failures (they
are total on states), and transport send failures are contained inside
`send_message`'s retry loop — `send_message` returns normally (`success` or
`evicted`, never fuel exhaustion) for every target in the peers dictionary.
The one escape is the unknown-peer condition: `send_message` raises
`KeyError` exactly when its target address is not a key of the peers
dictionary, and that exception propagates out of the component. -/
theorem C4_exception_containment (o : Nat → Bool) (st : MeshState)
    (msg : String) (addr : Addr) :
    ((send_message o st msg addr).1 = SendResult.keyError ↔
      findPeer st.peers addr = none) ∧
    (send_message o st msg addr).1 ≠ SendResult.fuelOut := by
  refine ⟨send_message_keyError_iff o st msg addr, ?_⟩
  cases h : findPeer st.peers addr with
  | none =>
    rw [show send_message o st msg addr = smLoop o msg addr 6 0 st from rfl,
      smLoop_none o msg 5 0 h]
    exact fun hcontra => SendResult.noConfusion hcontra
  | some p =>
    have hb := smLoop_bounded o msg addr 5 0 st p h (by omega) (by omega) 6
      (by omega)
    rw [show send_message o st msg addr = smLoop o msg addr 6 0 st from rfl]
    rcases hb.1 with h1 | h1 <;> rw [h1] <;>
      exact fun hcontra => SendResult.noConfusion hcontra

/-- C5: `send_message` on an address that is not a key of the peers
dictionary raises `KeyError` whatever the transport answers (the oracle `o`
covers both the success and the failure branch of the first attempt), and
the situation is reachable: after `start`, the broadcast address is
link-registered but not in the dictionary, and the very first liveness
cycle probes exactly it and crashes. -/
theorem C5_unknown_target_keyError (o : Nat → Bool) (st : MeshState)
    (msg : String) (addr : Addr)
    (habs : findPeer st.peers addr = none) :
    (send_message o st msg addr).1 = SendResult.keyError ∧
    BROADCAST_ADDR ∈ start_state.registered ∧
    findPeer start_state.peers BROADCAST_ADDR = none ∧
    (notify_cycle osT start_state).1 = true ∧
    sendTargets (notify_cycle osT start_state).2.2 = [BROADCAST_ADDR] := by
  refine ⟨?_, by decide, by decide, by decide, by decide⟩
  rw [show send_message o st msg addr = smLoop o msg addr 6 0 st from rfl,
    smLoop_none o msg 5 0 habs]

/-- C5, witness: the broadcast address in the post-`start` state, with a
transport whose `asend` succeeds (the `KeyError` fires on the success
branch). -/
theorem C5_witness :
    findPeer start_state.peers BROADCAST_ADDR = none ∧
    ((send_message (fun _ => true) start_state "Hi" BROADCAST_ADDR).1 =
        SendResult.keyError ∧
      BROADCAST_ADDR ∈ start_state.registered ∧
      findPeer start_state.peers BROADCAST_ADDR = none ∧
      (notify_cycle osT start_state).1 = true ∧
      sendTargets (notify_cycle osT start_state).2.2 = [BROADCAST_ADDR]) :=
  ⟨by decide,
    C5_unknown_target_keyError (fun _ => true) start_state "Hi" BROADCAST_ADDR
      (by decide)⟩

/-- C6: for a peer in the dictionary with ANY prior failure count, a
`send_message` call in which the transport answers false for the first `j`
attempts and true at attempt `j` (before the eviction threshold intervenes)
returns `success` and leaves the peer's failure count at 0. -/
theorem C6_reset_on_success (o : Nat → Bool) (st : MeshState) (msg : String)
    (addr : Addr) (p : Peer) (j : Nat)
    (hfind : findPeer st.peers addr = some p)
    (hlt : p.failure_count + j < 5)
    (hfail : ∀ i, i < j → o i = false) (hsucc : o j = true) :
    (send_message o st msg addr).1 = SendResult.success ∧
    findPeer (send_message o st msg addr).2.1.peers addr =
      some { p with failure_count := 0 } := by
  have hrun := smLoop_success_at o msg addr j 0 st p hfind hlt
    (fun i hi => by simpa using hfail i hi) (by simpa using hsucc) 6
    (by omega)
  rw [show send_message o st msg addr = smLoop o msg addr 6 0 st from rfl, hrun]
  refine ⟨rfl, ?_⟩
  rw [show (SendResult.success, setFailure st addr 0,
      succTrace addr msg j).2.1 = setFailure st addr 0 from rfl,
    findPeer_setFailure_self, hfind]
  rfl

/-- C6, witness: prior failure count 2, two further in-call failures, then
success on attempt 3 — the count ends at 0, not 4. -/
theorem C6_witness :
    findPeer (⟨true, [(addrA, ⟨addrA, 2, 0⟩)], [addrA], 0⟩ : MeshState).peers
      addrA = some ⟨addrA, 2, 0⟩ ∧
    ((send_message (fun k => decide (2 ≤ k))
        ⟨true, [(addrA, ⟨addrA, 2, 0⟩)], [addrA], 0⟩ "Hi" addrA).1 =
      SendResult.success ∧
    findPeer (send_message (fun k => decide (2 ≤ k))
        ⟨true, [(addrA, ⟨addrA, 2, 0⟩)], [addrA], 0⟩ "Hi" addrA).2.1.peers
      addrA = some ⟨addrA, 0, 0⟩) :=
  ⟨by decide,
    C6_reset_on_success (fun k => decide (2 ≤ k))
      ⟨true, [(addrA, ⟨addrA, 2, 0⟩)], [addrA], 0⟩ "Hi" addrA ⟨addrA, 2, 0⟩ 2
      (by decide) (by decide) (by decide) (by decide)⟩

/-- C7: for every target present in the peers dictionary, `send_message`
terminates (its bounded retry loop never exhausts the fuel that models it):
it returns `success` or `evicted`, makes at most 5 `asend` attempts, and its
trace is attempts separated by exactly one 1-unit sleep with no sleep after
the final attempt. -/
theorem C7_bounded_termination (o : Nat → Bool) (st : MeshState)
    (msg : String) (addr : Addr) (p : Peer)
    (hfind : findPeer st.peers addr = some p) :
    ((send_message o st msg addr).1 = SendResult.success ∨
      (send_message o st msg addr).1 = SendResult.evicted) ∧
    attemptCount (send_message o st msg addr).2.2 ≤ 5 ∧
    AltTrace addr msg (send_message o st msg addr).2.2 :=
  smLoop_bounded o msg addr 5 0 st p hfind (by omega) (by omega) 6 (by omega)

/-- C7, witness: the always-failing transport against the single peer. -/
theorem C7_witness :
    findPeer st1.peers addrA = some ⟨addrA, 0, 0⟩ ∧
    (((send_message (fun _ => false) st1 "Hi" addrA).1 = SendResult.success ∨
      (send_message (fun _ => false) st1 "Hi" addrA).1 = SendResult.evicted) ∧
    attemptCount (send_message (fun _ => false) st1 "Hi" addrA).2.2 ≤ 5 ∧
    AltTrace addrA "Hi" (send_message (fun _ => false) st1 "Hi" addrA).2.2) :=
  ⟨by decide,
    C7_bounded_termination (fun _ => false) st1 "Hi" addrA ⟨addrA, 0, 0⟩
      (by decide)⟩

/-- C8: if the beacon task observes `is_in_mesh` false at its first `n`
checks and true at check `n`, then — however much longer the scheduler would
let it run — its whole trace is exactly `n` iterations of one broadcast of
`"--hello--"` followed by one 1-unit sleep, after which it exits for good:
`n` broadcasts (all to the broadcast address) while unjoined, zero
afterwards, and no resumption ever. -/
theorem C8_beacon_terminates (flags bo : Nat → Bool) (n : Nat)
    (hfalse : ∀ j, j < n → flags j = false) (htrue : flags n = true) :
    (∀ fuel, n < fuel → beaconRun flags bo fuel 0 = (beaconTrace bo 0 n, true)) ∧
    sendTargets (beaconTrace bo 0 n) = List.replicate n BROADCAST_ADDR := by
  refine ⟨fun fuel hfuel => ?_, beaconTrace_targets bo n 0⟩
  exact beaconRun_spec flags bo n 0 (fun j hj => by simpa using hfalse j hj)
    (by simpa using htrue) fuel hfuel

/-- C8, witness: the node joins at the beacon's third check. -/
theorem C8_witness :
    (∀ j, j < 3 → (fun i => decide (3 ≤ i)) j = false) ∧
    ((∀ fuel, 3 < fuel → beaconRun (fun i => decide (3 ≤ i)) (fun _ => true)
        fuel 0 = (beaconTrace (fun _ => true) 0 3, true)) ∧
      sendTargets (beaconTrace (fun _ => true) 0 3) =
        List.replicate 3 BROADCAST_ADDR) :=
  ⟨by decide,
    C8_beacon_terminates (fun i => decide (3 ≤ i)) (fun _ => true) 3
      (by decide) (by decide)⟩

/-- C9, counterexample: right after `start`, the broadcast address is absent
from the peers dictionary (PeerTable), yet `add_peer` on it creates NO Peer
entry — presence is checked against the link-layer registry, which already
holds the broadcast address.  This refutes "inserting an absent address
creates a Peer with failure count 0 and last_seen now". -/
theorem C9_counterexample :
    findPeer start_state.peers BROADCAST_ADDR = none ∧
    add_peer true start_state BROADCAST_ADDR = start_state := by decide

/-- C9 (amended): `add_peer` checks presence against the link-layer
registry.  Inserting an address already in the dictionary is a no-op in
every state satisfying the reachability invariant `Inv` (every dictionary
key is link-registered): no duplicate entry, failure count untouched.  An
already link-registered address is a no-op outright, as is a failed link
registration.  Inserting an unregistered address with successful
registration creates exactly one Peer with failure count 0 and
`last_seen = now`, leaves every other key unchanged, and appends the
address to the registry. -/
theorem C9_insert_idempotent (st : MeshState) (addr : Addr) (regOk : Bool) :
    (Inv st → (findPeer st.peers addr).isSome = true →
      add_peer regOk st addr = st) ∧
    (addr ∈ st.registered → add_peer regOk st addr = st) ∧
    (addr ∉ st.registered → add_peer false st addr = st) ∧
    (addr ∉ st.registered →
      findPeer (add_peer true st addr).peers addr = some ⟨addr, 0, st.now⟩ ∧
      (∀ b, b ≠ addr →
        findPeer (add_peer true st addr).peers b = findPeer st.peers b) ∧
      (add_peer true st addr).registered = st.registered ++ [addr]) := by
  refine ⟨?_, ?_, ?_, ?_⟩
  · intro hInv hsome
    obtain ⟨p, hp⟩ := Option.isSome_iff_exists.mp hsome
    unfold add_peer
    rw [if_pos (Inv_findPeer_registered hInv hp)]
  · intro h
    unfold add_peer
    rw [if_pos h]
  · intro h
    simp [add_peer, h]
  · intro h
    refine ⟨?_, ?_, ?_⟩
    · simp only [add_peer, if_neg h, if_pos rfl]
      exact findPeer_dictInsert_self st.peers addr ⟨addr, 0, st.now⟩
    · intro b hb
      simp only [add_peer, if_neg h, if_pos rfl]
      exact findPeer_dictInsert_ne st.peers ⟨addr, 0, st.now⟩ hb
    · simp [add_peer, h]

/-- C9, witness: inserting the already-present `addrA` into `st1` changes
nothing. -/
theorem C9_witness :
    Inv st1 ∧ (findPeer st1.peers addrA).isSome = true ∧
    add_peer true st1 addrA = st1 :=
  ⟨by decide, by decide,
    (C9_insert_idempotent st1 addrA true).1 (by decide) (by decide)⟩

/-- C10: once `is_in_mesh` is true it stays true under every sequence of the
run's operations — received frames, peer additions and removals, reliable
sends (with their evictions), whole liveness cycles and clock ticks. -/
theorem C10_join_monotone (ops : List Op) (st : MeshState)
    (h : st.is_in_mesh = true) : (applyOps ops st).is_in_mesh = true := by
  induction ops generalizing st with
  | nil => exact h
  | cons op ops ih => exact ih (applyOp op st) (is_in_mesh_applyOp op st h)

/-- C10, witness: evicting the joined node's only peer leaves `is_in_mesh`
true. -/
theorem C10_witness :
    st1.is_in_mesh = true ∧
    (applyOps [Op.removep addrA] st1).is_in_mesh = true :=
  ⟨by decide, C10_join_monotone [Op.removep addrA] st1 (by decide)⟩

end AutoMesh
